import Mathlib

/-
Verification of the pocket-state store engine (`createStore` in
src/src/globalState/store.ts and its revision src/unnamed/part_003,
which additionally carries the `forced` setValue option and the
unconditional no-argument `reset`).

Modelling choices:
* A JavaScript runtime value is `Prim` (primitives plus an object
  reference carrying its origin id, whether the deep clone rebuilds it,
  and a clone generation); `===`/`Object.is` is decidable equality on
  `Prim`, and deep-cloning a plain object yields a `===`-distinct
  reference with the same origin.  NaN and signed-zero subtleties are
  outside the claims and are not modelled.
* A record (plain object) is an association list of string keys to
  values in own-enumerable (insertion) order; a store state is a
  record, an array, or a primitive.
* The store instance is `Core`: the live state cell, the retained
  initial snapshot `_initialState`, and the ordered log of payloads
  emitted on the notification bus (`emitter.emit('state', state)`).
* The middleware pipeline head `setFn` is kept abstract: operations
  that forward a patch into the pipeline take an arbitrary
  `setFn : Core → StoreState → Core`; `baseSet` is the terminal
  committer, and a store with no declared middleware has
  `setFn = baseSet eq` (store.ts line 40-43: `reduceRight` over an
  empty list returns `baseSet`).
* Subscriptions (store.ts lines 50-76) keep a private mutable cache and
  react to each bus emission; a wrapped listener's behaviour is the
  left fold of its body over the sequence of emitted payloads, which is
  what `listenerCalls`/`sliceCalls` compute.
-/

namespace PocketState

/-- A JavaScript runtime value as the store sees one: `undefined`,
`null`, a boolean, a number, a string, or an object reference.  A
reference carries the identity `id` of the object it was created from,
whether that object is one `cloneObject` rebuilds entry by entry
(`plain` — plain objects, arrays and Dates) or returns as-is
(non-plain), and a clone generation `gen`: deep-cloning a plain object
produces a fresh reference, modelled by bumping `gen`, so the clone is
`===`-distinct from the original while still denoting the same
structural contents (same `id`).  Two references are `===`-equal
exactly when all three components agree. -/
inductive Prim where
  | undef
  | nullv
  | boolv (b : Bool)
  | num (n : Int)
  | str (s : String)
  | ref (id : Nat) (plain : Bool) (gen : Nat)
deriving DecidableEq

/-- A plain-object value: own-enumerable string keys with their values,
in property insertion order. -/
abbrev Obj := List (String × Prim)

/-- A store state (the type `T` of `createStore<T>`): a record, an
array, or a primitive.  Patches are themselves JavaScript values, so
this type is also the type of patches. -/
inductive StoreState where
  | obj (fields : Obj)
  | arr (elems : List Prim)
  | prim (v : Prim)
deriving DecidableEq

/-- First-match association-list lookup, the model of property access
`o[k]` restricted to present keys. -/
def objLookup : Obj → String → Option Prim
  | [], _ => none
  | (k, v) :: rest, key => if k = key then some v else objLookup rest key

/-- Property read `o[k]` as JavaScript evaluates one: `undefined` when
the key is absent. -/
def jsGet (f : Obj) (k : String) : Prim :=
  (objLookup f k).getD Prim.undef

/-- The `k in o` test: key presence. -/
def hasKey (f : Obj) (k : String) : Bool :=
  (objLookup f k).isSome

/-- Array elements seen as index-keyed own-enumerable properties, as
object spread and `for..in` see them. -/
def indexedProps (es : List Prim) : Obj :=
  es.enum.map (fun p => (toString p.1, p.2))

/-- The own-enumerable properties of a value: a record's fields, an
array's index properties, a string's index characters, and nothing for
other primitives.  This is what `{...v}` spreads and `for (k in v)`
iterates. -/
def enumProps : StoreState → Obj
  | .obj f => f
  | .arr es => indexedProps es
  | .prim (.str s) => s.data.enum.map (fun p => (toString p.1, Prim.str (String.mk [p.2])))
  | .prim _ => []

/-- Object-spread merge `{...f, ...d}`: keys of `f` keep their position
with values overridden by `d` where present, then keys of `d` that are
new are appended in their own order. -/
def spreadMerge (f d : Obj) : Obj :=
  f.map (fun kv => (kv.1, (objLookup d kv.1).getD kv.2)) ++
    d.filter (fun kv => ! hasKey f kv.1)

/-- `Array.isArray(state)`. -/
def isArrState : StoreState → Bool
  | .arr _ => true
  | _ => false

/-- The `typeof v === 'object' && v` guard of `setValue`'s apply step
(`null` is excluded by the falsiness check in the source). -/
def isObjectVal : StoreState → Bool
  | .obj _ => true
  | .arr _ => true
  | .prim _ => false

/-- The prospective next state of the terminal committer and of the
forced path (store.ts lines 30-32, part_003 line 87):
`Array.isArray(state) ? delta : {...state, ...delta}`. -/
def mergePatch (s delta : StoreState) : StoreState :=
  match s with
  | .arr _ => delta
  | s => .obj (spreadMerge (enumProps s) (enumProps delta))

/-- Modelled from the spec: the default Equality Engine `shallow`
(src/utils/shallowEqual.ts is imported by store.ts but its source file
is not present under src/).  Spec 4.1: for records, one-level
comparison of own-enumerable field values with identity/primitive
equality per field and no recursion; for non-record values,
identity/primitive equality. -/
def shallow : StoreState → StoreState → Bool
  | .obj a, .obj b =>
      a.length == b.length &&
        a.all (fun kv => decide (objLookup b kv.1 = some kv.2))
  | a, b => decide (a = b)

/-- The deep clone `cloneObject` (src/src/utils/cloneObject.ts) acting
on one field value: primitives are returned as-is, a non-plain object
reference is returned as-is (`copy = data` when `!isPlainObject`), and
a plain object, array or Date is rebuilt into a fresh reference with
the same structural contents — modelled by bumping the clone
generation, which makes the result `===`-distinct from the input. -/
def clonePrim : Prim → Prim
  | .ref id true gen => .ref id true (gen + 1)
  | v => v

/-- Deep clone `cloneObject` (src/src/utils/cloneObject.ts): records
and arrays are rebuilt entry by entry with every entry recursively
cloned (`clonePrim`); a primitive top-level value is returned as is. -/
def cloneObject : StoreState → StoreState
  | .obj f => .obj (f.map (fun kv => (kv.1, clonePrim kv.2)))
  | .arr es => .arr (es.map clonePrim)
  | .prim v => .prim v

/-- Whether a field value is a reference `cloneObject` rebuilds into a
fresh reference (a nested plain object, array or Date). -/
def primIsPlainRef : Prim → Bool
  | .ref _ true _ => true
  | _ => false

/-- States none of whose entries hold a nested plain-object reference:
on exactly these the deep clone is per-field identical to its input. -/
def noPlainRefFields : StoreState → Bool
  | .obj f => f.all (fun kv => ! primIsPlainRef kv.2)
  | .arr es => es.all (fun v => ! primIsPlainRef v)
  | .prim _ => true

/-- Structural equality of two field values: reference identity is
erased — two references to the same original object (same `id`, any
clone generation) are structurally equal; all other values compare by
value.  This is the model's notion of "structurally equal" (it is
sufficient, not complete: distinct originals with coincidentally equal
contents are not identified, and the claims only use it positively). -/
def primStructEq : Prim → Prim → Bool
  | .ref i p _, .ref j q _ => decide (i = j) && decide (p = q)
  | a, b => decide (a = b)

/-- Entry-wise structural equality of two records. -/
def objStructEq : Obj → Obj → Bool
  | [], [] => true
  | (k1, v1) :: r1, (k2, v2) :: r2 =>
      decide (k1 = k2) && primStructEq v1 v2 && objStructEq r1 r2
  | _, _ => false

/-- Element-wise structural equality of two element lists. -/
def listStructEq : List Prim → List Prim → Bool
  | [], [] => true
  | a :: as, b :: bs => primStructEq a b && listStructEq as bs
  | _, _ => false

/-- Structural equality of two store states: same shape and
structurally equal entries, reference identity erased. -/
def structurallyEqual : StoreState → StoreState → Bool
  | .obj a, .obj b => objStructEq a b
  | .arr a, .arr b => listStructEq a b
  | .prim a, .prim b => primStructEq a b
  | _, _ => false

/-- The construction-time shallow copy of the argument
(store.ts lines 16-20): `isArray ? slice() : object ? {...} : itself`. -/
def shallowCopyInit : StoreState → StoreState
  | .arr es => .arr (es.map (fun v => v))
  | .obj f => .obj (f.map (fun kv => (kv.1, kv.2)))
  | .prim v => .prim v

/-- A store instance: the live state cell, the retained initial
snapshot `_initialState`, and the ordered log of payloads emitted on
the notification bus. -/
structure Core where
  state : StoreState
  initSnap : StoreState
  emitted : List StoreState
deriving DecidableEq

/-- `createStore(initialState)`: `_initialState` is the shallow copy of
the argument and the state cell starts at that copy (store.ts
lines 16-21); nothing has been emitted. -/
def createCore (init : StoreState) : Core :=
  { state := shallowCopyInit init
    initSnap := shallowCopyInit init
    emitted := [] }

/-- The terminal committer `baseSet` (store.ts lines 29-38): compute
the prospective next state, and only when it is not `areEqual` to the
current state, commit it and emit it. -/
def baseSet (eq : StoreState → StoreState → Bool) (c : Core)
    (delta : StoreState) : Core :=
  let nextState := mergePatch c.state delta
  if eq c.state nextState then c
  else { c with state := nextState, emitted := c.emitted ++ [nextState] }

/-- The `apply` step of `setValue` (part_003 lines 84-92): ignore
non-object resolved patches; under `forced`, write the merged next
state straight into the state cell and emit, bypassing the pipeline
`setFn` and any equality check; otherwise hand the patch to the
pipeline head `setFn`. -/
def applyRes (setFn : Core → StoreState → Core) (forced : Bool)
    (c : Core) (res : StoreState) : Core :=
  if ! isObjectVal res then c
  else if forced then
    let nextState := mergePatch c.state res
    { c with state := nextState, emitted := c.emitted ++ [nextState] }
  else setFn c res

/-- The possible outcomes of invoking a patch function on the current
state: a synchronously returned value, a synchronous throw, an
awaitable that later resolves to a value, or an awaitable that later
rejects. -/
inductive PatchResult where
  | val (v : StoreState)
  | thrown
  | resolveLater (v : StoreState)
  | rejectLater
deriving DecidableEq

/-- `setValue` for the direct (non-function) patch shape
(part_003 lines 94-105 with `resolved = patch`). -/
def setValueObjPatch (setFn : Core → StoreState → Core) (c : Core)
    (p : StoreState) (forced : Bool) : Core :=
  applyRes setFn forced c p

/-- `setValue` for the function patch shapes (part_003 lines 94-108):
the function is invoked once with the state current at invocation time;
a synchronous throw is caught (warned, dropped), a rejection is caught
by `.catch` (warned, dropped), and a synchronous or resolved value goes
through `apply`.  The returned `Core` is the store once the write has
fully settled. -/
def setValueFnPatch (setFn : Core → StoreState → Core) (c : Core)
    (pf : StoreState → PatchResult) (forced : Bool) : Core :=
  match pf c.state with
  | .thrown => c
  | .rejectLater => c
  | .val v => applyRes setFn forced c v
  | .resolveLater v => applyRes setFn forced c v

/-- First `setImmer` loop (store.ts lines 108-115): the fields of
`nextState` whose value is `!==` the correspondingly-keyed value of the
current state (`undefined` when the key is absent). -/
def immerChanged (sp np : Obj) : Obj :=
  np.filter (fun kv => decide (kv.2 ≠ jsGet sp kv.1))

/-- Second `setImmer` loop (store.ts lines 116-121): every key of the
current state absent from `nextState`, mapped to `undefined` — the
removal marker. -/
def immerRemoved (sp np : Obj) : Obj :=
  (sp.filter (fun kv => ! hasKey np kv.1)).map (fun kv => (kv.1, Prim.undef))

/-- The minimal delta `setImmer` builds for non-array state. -/
def immerDelta (sp np : Obj) : Obj :=
  immerChanged sp np ++ immerRemoved sp np

/-- `setImmer` (store.ts lines 97-126) given the result `ns` of the
opaque external draft engine `produce(state, updater)`: no-op when `ns`
is `areEqual` to the current state; for array state the full `ns` is
forwarded to the pipeline; otherwise the minimal delta is built and
forwarded only when non-empty (the `changed` flag). -/
def setImmerWith (eq : StoreState → StoreState → Bool)
    (setFn : Core → StoreState → Core) (c : Core) (ns : StoreState) : Core :=
  if eq c.state ns then c
  else if isArrState c.state then setFn c ns
  else
    let d := immerDelta (enumProps c.state) (enumProps ns)
    if d = [] then c else setFn c (.obj d)

/-- `reset()` with no argument (part_003 lines 147-152): the state cell
is replaced by `cloneObject(_initialState)` and the new state is
emitted unconditionally, touching neither the pipeline nor the
equality gate. -/
def reset0 (c : Core) : Core :=
  let cloned := cloneObject c.initSnap
  { c with state := cloned, emitted := c.emitted ++ [cloned] }

/-- `isDirty()` (store.ts lines 164-166): `!areEqual(state, _initialState)`. -/
def isDirty (eq : StoreState → StoreState → Bool) (c : Core) : Bool :=
  ! eq c.state c.initSnap

/-- `getValue(key)` (store.ts lines 45-48): `state[key]`. -/
def getValueKey (c : Core) (k : String) : Prim :=
  jsGet (enumProps c.state) k

/-- The whole-state subscription wrapper (store.ts lines 63-72) run
over a sequence of bus emissions: starting from the private `prev`
cache seeded with the state current at subscribe time, each emitted
`next` invokes `listener(prev, next)` and updates the cache exactly
when `!areEqual(next, prev)`.  Returns the invocation list in order. -/
def listenerCalls (eq : StoreState → StoreState → Bool) :
    StoreState → List StoreState → List (StoreState × StoreState)
  | _, [] => []
  | prev, next :: rest =>
      if eq next prev then listenerCalls eq prev rest
      else (prev, next) :: listenerCalls eq next rest

/-- The selector subscription wrapper (store.ts lines 53-62) run over a
sequence of bus emissions: the private `prevSlice` cache is seeded with
`selector(state)` at subscribe time, and each emitted `next` invokes
`listener(prevSlice, slice)` and updates the cache exactly when
`!areEqual(slice, prevSlice)` where `slice = selector(next)`. -/
def sliceCalls (eq : StoreState → StoreState → Bool)
    (sel : StoreState → StoreState) :
    StoreState → List StoreState → List (StoreState × StoreState)
  | _, [] => []
  | prevSlice, next :: rest =>
      if eq (sel next) prevSlice then sliceCalls eq sel prevSlice rest
      else (prevSlice, sel next) :: sliceCalls eq sel (sel next) rest

/-- Structural value equality as a legal user-supplied `equalityFn`
(spec 4.1 admits any total, reflexive, symmetric predicate). -/
def structEq : StoreState → StoreState → Bool :=
  fun a b => decide (a = b)

/-- The record `{a:0,b:0}` of the spec's selector-isolation and
no-op-gating examples. -/
def stateAB : StoreState := .obj [("a", .num 0), ("b", .num 0)]

/-- `createStore({a:0,b:0})` with the default equality engine and no
middleware. -/
def storeAB : Core := createCore stateAB

/-- The selector `s => s.a`. -/
def selA : StoreState → StoreState :=
  fun s => .prim (jsGet (enumProps s) "a")

/-- `storeAB` after `setValue({b:1})`. -/
def storeAB1 : Core :=
  setValueObjPatch (baseSet shallow) storeAB (.obj [("b", .num 1)]) false

/-- `storeAB1` after `setValue({a:1})`. -/
def storeAB2 : Core :=
  setValueObjPatch (baseSet shallow) storeAB1 (.obj [("a", .num 1)]) false

/-- Numeric coercion for the counter scenario (only ever applied to
number values there). -/
def primToInt : Prim → Int
  | .num n => n
  | _ => 0

/-- The updater `s => ({count: s.count + 1})` of the spec's ordering
scenario, returning synchronously. -/
def incCount (s : StoreState) : PatchResult :=
  .val (.obj [("count", .num (primToInt (jsGet (enumProps s) "count") + 1))])

/-- `createStore({count:0})`. -/
def storeCount0 : Core := createCore (.obj [("count", .num 0)])

/-- `storeCount0` after three synchronous
`setValue(s => ({count: s.count+1}))` calls in program order. -/
def storeCount3 : Core :=
  setValueFnPatch (baseSet shallow)
    (setValueFnPatch (baseSet shallow)
      (setValueFnPatch (baseSet shallow) storeCount0 incCount false)
      incCount false)
    incCount false

/-- `createStore({a:1,b:2})`. -/
def storeDel : Core := createCore (.obj [("a", .num 1), ("b", .num 2)])

/-- `storeDel` after a `setImmer` whose draft mutator deleted the field
`b`, so that `produce` returned `{a:1}`. -/
def storeDel1 : Core :=
  setImmerWith shallow (baseSet shallow) storeDel (.obj [("a", .num 1)])

end PocketState

namespace PocketState

/-! Helper lemmas. -/

theorem shallowCopyInit_eq (s : StoreState) : shallowCopyInit s = s := by
  cases s <;> simp [shallowCopyInit]

theorem primStructEq_clone (v : Prim) : primStructEq (clonePrim v) v = true := by
  cases v with
  | ref id plain gen => cases plain <;> simp [clonePrim, primStructEq]
  | undef => rfl
  | nullv => rfl
  | boolv b => simp [clonePrim, primStructEq]
  | num n => simp [clonePrim, primStructEq]
  | str s => simp [clonePrim, primStructEq]

theorem cloneObject_structurallyEqual (s : StoreState) :
    structurallyEqual (cloneObject s) s = true := by
  cases s with
  | obj f =>
    show objStructEq (f.map (fun kv => (kv.1, clonePrim kv.2))) f = true
    induction f with
    | nil => rfl
    | cons kv rest ih =>
      rcases kv with ⟨k, v⟩
      simpa [objStructEq, primStructEq_clone] using ih
  | arr es =>
    show listStructEq (es.map clonePrim) es = true
    induction es with
    | nil => rfl
    | cons v rest ih =>
      simpa [listStructEq, primStructEq_clone] using ih
  | prim v =>
    show primStructEq v v = true
    cases v <;> simp [primStructEq]

theorem clonePrim_of_not_plainRef {v : Prim} (h : primIsPlainRef v = false) :
    clonePrim v = v := by
  cases v with
  | ref id plain gen =>
    cases plain
    · rfl
    · simp [primIsPlainRef] at h
  | undef => rfl
  | nullv => rfl
  | boolv b => rfl
  | num n => rfl
  | str s => rfl

theorem map_clonePrim_of_flat :
    ∀ (f : Obj), (∀ kv ∈ f, primIsPlainRef kv.2 = false) →
      f.map (fun kv => (kv.1, clonePrim kv.2)) = f
  | [], _ => rfl
  | ⟨k, v⟩ :: rest, h => by
    rw [List.map_cons]
    rw [clonePrim_of_not_plainRef (h ⟨k, v⟩ (List.mem_cons_self _ _))]
    rw [map_clonePrim_of_flat rest fun x hx => h x (List.mem_cons_of_mem _ hx)]

theorem map_clonePrim_of_flatList :
    ∀ (es : List Prim), (∀ v ∈ es, primIsPlainRef v = false) →
      es.map clonePrim = es
  | [], _ => rfl
  | v :: rest, h => by
    rw [List.map_cons]
    rw [clonePrim_of_not_plainRef (h v (List.mem_cons_self _ _))]
    rw [map_clonePrim_of_flatList rest fun x hx => h x (List.mem_cons_of_mem _ hx)]

theorem cloneObject_of_noPlainRefFields {s : StoreState}
    (h : noPlainRefFields s = true) : cloneObject s = s := by
  cases s with
  | obj f =>
    simp only [noPlainRefFields, List.all_eq_true] at h
    show StoreState.obj (f.map fun kv => (kv.1, clonePrim kv.2)) = .obj f
    rw [map_clonePrim_of_flat f fun kv hkv => by simpa using h kv hkv]
  | arr es =>
    simp only [noPlainRefFields, List.all_eq_true] at h
    show StoreState.arr (es.map clonePrim) = .arr es
    rw [map_clonePrim_of_flatList es fun v hv => by simpa using h v hv]
  | prim v => rfl

theorem structEq_refl (s : StoreState) : structEq s s = true := by
  simp [structEq]

theorem structEq_symm (a b : StoreState) : structEq a b = structEq b a := by
  unfold structEq
  exact decide_eq_decide.mpr eq_comm

theorem objLookup_mem {f : Obj} {k : String} {v : Prim}
    (h : objLookup f k = some v) : (k, v) ∈ f := by
  induction f with
  | nil => simp [objLookup] at h
  | cons kv rest ih =>
    rcases kv with ⟨k1, v1⟩
    by_cases hk : k1 = k
    · subst hk
      have hv : v1 = v := by simpa [objLookup] using h
      subst hv
      exact List.mem_cons_self _ _
    · simp only [objLookup, if_neg hk] at h
      exact List.mem_cons_of_mem _ (ih h)

theorem hasKey_of_mem {f : Obj} {kv : String × Prim} (h : kv ∈ f) :
    hasKey f kv.1 = true := by
  induction f with
  | nil => simp at h
  | cons kv' rest ih =>
    rcases List.mem_cons.mp h with h | h
    · subst h
      simp [hasKey, objLookup]
    · by_cases hk : kv'.1 = kv.1
      · simp [hasKey, objLookup, hk]
      · simpa [hasKey, objLookup, hk] using ih h

theorem mem_objLookup :
    ∀ {f : Obj}, (f.map Prod.fst).Nodup → ∀ {k : String} {v : Prim},
      (k, v) ∈ f → objLookup f k = some v
  | [], _, _, _, hmem => by simp at hmem
  | (k1, v1) :: rest, hnd, k, v, hmem => by
    rw [List.map_cons, List.nodup_cons] at hnd
    rcases List.mem_cons.mp hmem with h | h
    · injection h with h1 h2
      subst h1
      subst h2
      simp [objLookup]
    · have hk : ¬ k1 = k := by
        intro hh
        have hmem2 : Prod.fst (k, v) ∈ List.map Prod.fst rest :=
          List.mem_map_of_mem Prod.fst h
        exact hnd.1 (by
          rw [hh]
          exact hmem2)
      simp only [objLookup, if_neg hk]
      exact mem_objLookup hnd.2 h

theorem objLookup_eq_some_iff {f : Obj} (hnd : (f.map Prod.fst).Nodup)
    {k : String} {v : Prim} : objLookup f k = some v ↔ (k, v) ∈ f :=
  ⟨objLookup_mem, mem_objLookup hnd⟩

theorem objLookup_override (f d : Obj) (k : String) :
    objLookup (f.map (fun kv => (kv.1, (objLookup d kv.1).getD kv.2))) k =
      (objLookup f k).map (fun v => (objLookup d k).getD v) := by
  induction f with
  | nil => rfl
  | cons kv rest ih =>
    by_cases h : kv.1 = k <;> simp [objLookup, h, ih]

theorem objLookup_append_of_some {xs : Obj} (ys : Obj) {k : String} {v : Prim}
    (h : objLookup xs k = some v) : objLookup (xs ++ ys) k = some v := by
  induction xs with
  | nil => simp [objLookup] at h
  | cons kv rest ih =>
    by_cases hk : kv.1 = k
    · simpa [objLookup, hk] using h
    · simp only [objLookup, if_neg hk] at h ⊢
      exact ih h

theorem hasKey_spreadMerge (f d : Obj) (k : String) (h : hasKey f k = true) :
    hasKey (spreadMerge f d) k = true := by
  unfold hasKey at h ⊢
  obtain ⟨v, hv⟩ := Option.isSome_iff_exists.mp h
  have hov : objLookup
      (f.map (fun kv => (kv.1, (objLookup d kv.1).getD kv.2))) k =
        some ((objLookup d k).getD v) := by
    rw [objLookup_override, hv, Option.map_some']
  rw [spreadMerge, objLookup_append_of_some _ hov]
  rfl

theorem enumProps_obj (f : Obj) : enumProps (.obj f) = f := rfl

theorem isArrState_obj (f : Obj) : isArrState (.obj f) = false := rfl

theorem applyRes_not_forced (setFn : Core → StoreState → Core) (c : Core)
    (res : StoreState) (hobj : isObjectVal res = true) :
    applyRes setFn false c res = setFn c res := by
  unfold applyRes
  rw [hobj]
  rfl

theorem baseSet_of_ne (eq : StoreState → StoreState → Bool) (c : Core)
    (delta : StoreState)
    (h : eq c.state (mergePatch c.state delta) = false) :
    baseSet eq c delta =
      { c with state := mergePatch c.state delta,
               emitted := c.emitted ++ [mergePatch c.state delta] } := by
  simp only [baseSet]
  rw [h]
  rfl

theorem listenerCalls_head_chain (eq : StoreState → StoreState → Bool) :
    ∀ (ems : List StoreState) (seed : StoreState),
      (∀ p rest, listenerCalls eq seed ems = p :: rest → p.1 = seed) ∧
      List.Chain' (fun a b : StoreState × StoreState => b.1 = a.2)
        (listenerCalls eq seed ems) ∧
      (∀ pr ∈ listenerCalls eq seed ems, eq pr.2 pr.1 = false)
  | [], seed => by simp [listenerCalls]
  | next :: rest, seed => by
    by_cases h : eq next seed
    · simpa [listenerCalls, h] using listenerCalls_head_chain eq rest seed
    · have hB : eq next seed = false := by simpa using h
      have ih := listenerCalls_head_chain eq rest next
      have hcalls : listenerCalls eq seed (next :: rest) =
          (seed, next) :: listenerCalls eq next rest := by
        simp [listenerCalls, hB]
      rw [hcalls]
      refine ⟨?_, ?_, ?_⟩
      · intro p r hp
        cases hp
        rfl
      · rw [List.chain'_cons']
        refine ⟨?_, ih.2.1⟩
        intro b hb
        rcases hrec : listenerCalls eq next rest with _ | ⟨p, r⟩
        · rw [hrec] at hb
          simp at hb
        · rw [hrec] at hb
          simp only [List.head?_cons, Option.mem_def, Option.some.injEq] at hb
          subst hb
          exact ih.1 p r hrec
      · intro pr hpr
        rcases List.mem_cons.mp hpr with h1 | h1
        · subst h1
          exact hB
        · exact ih.2.2 pr h1

theorem sliceCalls_eq_listenerCalls (eq : StoreState → StoreState → Bool)
    (sel : StoreState → StoreState) :
    ∀ (ems : List StoreState) (seed : StoreState),
      sliceCalls eq sel seed ems = listenerCalls eq seed (ems.map sel)
  | [], _ => rfl
  | n :: rest, seed => by
    by_cases h : eq (sel n) seed <;>
      simp [sliceCalls, listenerCalls, h, sliceCalls_eq_listenerCalls eq sel rest]

theorem mem_immerDelta_iff {sp np : Obj} (hnp : (np.map Prod.fst).Nodup)
    (k : String) (v : Prim) :
    (k, v) ∈ immerDelta sp np ↔
      ((objLookup np k = some v ∧ v ≠ jsGet sp k) ∨
       (hasKey sp k = true ∧ hasKey np k = false ∧ v = .undef)) := by
  unfold immerDelta immerChanged immerRemoved
  rw [List.mem_append]
  apply or_congr
  · rw [List.mem_filter]
    constructor
    · rintro ⟨hmem, hne⟩
      exact ⟨(objLookup_eq_some_iff hnp).mpr hmem, by simpa using hne⟩
    · rintro ⟨hlk, hne⟩
      exact ⟨objLookup_mem hlk, by simpa using hne⟩
  · constructor
    · intro hm
      rw [List.mem_map] at hm
      obtain ⟨kv, hkv, heq⟩ := hm
      rw [List.mem_filter] at hkv
      obtain ⟨hmem, hnk⟩ := hkv
      rcases kv with ⟨k0, v0⟩
      injection heq with h1 h2
      subst h1
      subst h2
      exact ⟨hasKey_of_mem hmem, by simpa using hnk, rfl⟩
    · rintro ⟨hsk, hnk, rfl⟩
      obtain ⟨w, hw⟩ := Option.isSome_iff_exists.mp hsk
      rw [List.mem_map]
      refine ⟨(k, w), ?_, rfl⟩
      rw [List.mem_filter]
      exact ⟨objLookup_mem hw, by simpa using hnk⟩

end PocketState

namespace PocketState

/-! Claim theorems. -/

/-- Claim C1: for every store, `reset()` with no argument replaces the
state with `cloneObject(_initialState)` — a fresh structural copy of
the Initial Snapshot, structurally equal to it though its rebuilt
nested references are fresh — and emits that new state unconditionally
(no equality gate is consulted: the conclusion holds with no assumption
relating the current state and the snapshot), so `reset(); reset();`
always leaves the state structurally equal to the Initial Snapshot. -/
theorem claim_C1 (c : Core) :
    (reset0 c).state = cloneObject c.initSnap ∧
    structurallyEqual (cloneObject c.initSnap) c.initSnap = true ∧
    (reset0 c).emitted = c.emitted ++ [cloneObject c.initSnap] ∧
    (reset0 (reset0 c)).state = cloneObject c.initSnap ∧
    structurallyEqual (reset0 (reset0 c)).state c.initSnap = true := by
  refine ⟨rfl, cloneObject_structurallyEqual _, rfl, rfl,
    cloneObject_structurallyEqual _⟩

/-- Claim C2: for record (non-array) state and any draft-engine result
`ns` not equal to the current state under the Equality Engine,
`setImmer` forwards into the middleware pipeline exactly the minimal
delta — the keys of `ns` whose value differs from the corresponding
current field (reading absent fields as `undefined`), plus the keys of
the current state absent from `ns` mapped to the removal marker
`undefined`, and no other key; the pipeline head `setFn` receives that
delta object, never the full next state.  Instantiated on the spec's
example, `setImmer(draft => { draft.a = 5 })` on `{a:0,b:0}` hands the
pipeline exactly `{a:5}`. -/
theorem claim_C2 (eq : StoreState → StoreState → Bool)
    (setFn : Core → StoreState → Core) (c : Core) (sp : Obj) (ns : StoreState)
    (hst : c.state = .obj sp) (hne : eq c.state ns = false)
    (hnp : ((enumProps ns).map Prod.fst).Nodup) :
    (∀ k v, (k, v) ∈ immerDelta sp (enumProps ns) ↔
        ((objLookup (enumProps ns) k = some v ∧ v ≠ jsGet sp k) ∨
         (hasKey sp k = true ∧ hasKey (enumProps ns) k = false ∧
           v = .undef))) ∧
    (immerDelta sp (enumProps ns) ≠ [] →
        setImmerWith eq setFn c ns = setFn c (.obj (immerDelta sp (enumProps ns)))) ∧
    (∀ sf : Core → StoreState → Core,
        setImmerWith shallow sf storeAB (.obj [("a", .num 5), ("b", .num 0)]) =
          sf storeAB (.obj [("a", .num 5)])) := by
  refine ⟨fun k v => mem_immerDelta_iff hnp k v, ?_, fun sf => rfl⟩
  intro hd
  rcases c with ⟨cst, cini, cem⟩
  simp only at hst
  subst hst
  simp only at hne
  unfold setImmerWith
  simp only [hne, Bool.false_eq_true, if_false, isArrState_obj, enumProps_obj]
  exact if_neg hd

/-- Witness for C2: concrete instantiation on the spec's example — the
store `{a:0,b:0}` with draft-engine result `{a:5,b:0}` and the bare
terminal committer as pipeline. -/
theorem claim_C2_witness :
    (storeAB.state = .obj [("a", Prim.num 0), ("b", Prim.num 0)]) ∧
    (shallow storeAB.state (.obj [("a", Prim.num 5), ("b", Prim.num 0)]) =
      false) ∧
    (((enumProps (.obj [("a", Prim.num 5), ("b", Prim.num 0)])).map
        Prod.fst).Nodup) ∧
    ((∀ k v, (k, v) ∈ immerDelta [("a", Prim.num 0), ("b", Prim.num 0)]
          (enumProps (.obj [("a", Prim.num 5), ("b", Prim.num 0)])) ↔
        ((objLookup (enumProps (.obj [("a", Prim.num 5), ("b", Prim.num 0)]))
              k = some v ∧
            v ≠ jsGet [("a", Prim.num 0), ("b", Prim.num 0)] k) ∨
         (hasKey [("a", Prim.num 0), ("b", Prim.num 0)] k = true ∧
            hasKey (enumProps (.obj [("a", Prim.num 5), ("b", Prim.num 0)]))
                k = false ∧
            v = .undef))) ∧
     (immerDelta [("a", Prim.num 0), ("b", Prim.num 0)]
          (enumProps (.obj [("a", Prim.num 5), ("b", Prim.num 0)])) ≠ [] →
        setImmerWith shallow (baseSet shallow) storeAB
            (.obj [("a", Prim.num 5), ("b", Prim.num 0)]) =
          baseSet shallow storeAB
            (.obj (immerDelta [("a", Prim.num 0), ("b", Prim.num 0)]
              (enumProps (.obj [("a", Prim.num 5), ("b", Prim.num 0)]))))) ∧
     (∀ sf : Core → StoreState → Core,
        setImmerWith shallow sf storeAB (.obj [("a", .num 5), ("b", .num 0)]) =
          sf storeAB (.obj [("a", .num 5)]))) :=
  ⟨by decide, by decide, by decide,
    claim_C2 shallow (baseSet shallow) storeAB
      [("a", Prim.num 0), ("b", Prim.num 0)]
      (.obj [("a", Prim.num 5), ("b", Prim.num 0)])
      (by decide) (by decide) (by decide)⟩

/-- Claim C3: when the patch function passed to `setValue` throws
synchronously, or the awaitable it returned rejects, the error is
caught (warned) and the write is dropped: whatever the middleware
pipeline `setFn` and the `forced` option, the store is returned
unchanged — same committed state, same emission log, and the exception
does not propagate (the operation is total). -/
theorem claim_C3 (setFn : Core → StoreState → Core) (c : Core)
    (pf : StoreState → PatchResult) (forced : Bool)
    (h : pf c.state = .thrown ∨ pf c.state = .rejectLater) :
    setValueFnPatch setFn c pf forced = c := by
  rcases h with h | h <;> simp [setValueFnPatch, h]

/-- Witness for C3: a patch function that throws synchronously on the
store `{a:1}` leaves the store untouched. -/
theorem claim_C3_witness :
    ((fun _ : StoreState => PatchResult.thrown)
        (createCore (.obj [("a", Prim.num 1)])).state = PatchResult.thrown ∨
      (fun _ : StoreState => PatchResult.thrown)
        (createCore (.obj [("a", Prim.num 1)])).state = PatchResult.rejectLater) ∧
    setValueFnPatch (baseSet shallow) (createCore (.obj [("a", Prim.num 1)]))
        (fun _ => PatchResult.thrown) false =
      createCore (.obj [("a", Prim.num 1)]) :=
  ⟨Or.inl rfl,
    claim_C3 (baseSet shallow) (createCore (.obj [("a", Prim.num 1)]))
      (fun _ => PatchResult.thrown) false (Or.inl rfl)⟩

/-- Claim C4: `setValue` with `{forced: true}` and an object-valued
resolved patch commits the merged next state and emits it
unconditionally, for every pipeline `setFn` (the result does not
mention `setFn`, so no middleware is invoked) and with no equality
engine consulted (the result mentions no equality function, so the
commit and the emission happen even when the next state equals the
current one); this holds for the direct patch shape and for the
synchronous and asynchronous function shapes alike. -/
theorem claim_C4 (setFn : Core → StoreState → Core) (c : Core)
    (v : StoreState) (hobj : isObjectVal v = true) :
    (setValueObjPatch setFn c v true =
      { c with state := mergePatch c.state v,
               emitted := c.emitted ++ [mergePatch c.state v] }) ∧
    (∀ pf : StoreState → PatchResult,
        (pf c.state = .val v ∨ pf c.state = .resolveLater v) →
        setValueFnPatch setFn c pf true =
          { c with state := mergePatch c.state v,
                   emitted := c.emitted ++ [mergePatch c.state v] }) := by
  constructor
  · simp [setValueObjPatch, applyRes, hobj]
  · intro pf hpf
    rcases hpf with h | h <;> simp [setValueFnPatch, h, applyRes, hobj]

/-- Witness for C4: on `createStore({a:0})`, a forced `setValue({a:0})`
whose next state is shallow-equal to the current state still commits
and emits (one notification is logged), under a pipeline that would
swallow every patch. -/
theorem claim_C4_witness :
    isObjectVal (.obj [("a", Prim.num 0)]) = true ∧
    setValueObjPatch (fun c _ => c) (createCore (.obj [("a", Prim.num 0)]))
        (.obj [("a", Prim.num 0)]) true =
      { createCore (.obj [("a", Prim.num 0)]) with
          state := .obj [("a", Prim.num 0)],
          emitted := [.obj [("a", Prim.num 0)]] } :=
  ⟨by decide,
    ((claim_C4 (fun c _ => c) (createCore (.obj [("a", Prim.num 0)]))
        (.obj [("a", Prim.num 0)]) (by decide)).1).trans (by decide)⟩

/-- Claim C5: at the terminal commit stage, the prospective next state
is the field-wise spread merge of a record state with the patch and the
patch itself for an array (sequence) state; the state cell is updated
and the new state appended to the emission log exactly when the next
state is not equal to the current state under the Equality Engine; and
on the spec's example, `setValue({})` on `createStore({a:0,b:0})` with
the default engine returns the store unchanged — no commit and no
emission, so no listener call count can change. -/
theorem claim_C5 (eq : StoreState → StoreState → Bool) (c : Core)
    (delta : StoreState) :
    ((∀ f d, mergePatch (.obj f) (.obj d) = .obj (spreadMerge f d)) ∧
     (∀ es d2, mergePatch (.arr es) d2 = d2)) ∧
    ((baseSet eq c delta).state =
       if eq c.state (mergePatch c.state delta) then c.state
       else mergePatch c.state delta) ∧
    ((baseSet eq c delta).emitted =
       c.emitted ++
         (if eq c.state (mergePatch c.state delta) then []
          else [mergePatch c.state delta])) ∧
    ((baseSet eq c delta).emitted ≠ c.emitted ↔
       eq c.state (mergePatch c.state delta) = false) ∧
    (setValueObjPatch (baseSet shallow) storeAB (.obj []) false = storeAB) := by
  refine ⟨⟨fun f d => rfl, fun es d2 => rfl⟩, ?_, ?_, ?_, by decide⟩ <;>
    by_cases h : eq c.state (mergePatch c.state delta) <;>
      simp [baseSet, h]

/-- Claim C6: a selector subscription seeds its private previous-slice
cache with the selector applied to the state at subscribe time; each
subsequent emission invokes the listener with `(prevSlice, nextSlice)`
exactly when the re-evaluated slice is not equal to the cached slice
under the Equality Engine (the recursion equation below), every
delivered pair compares not-equal, and the first delivery's previous
slice is the seed.  On the spec's example over `createStore({a:0,b:0})`
with selector `s => s.a`: after `setValue({b:1})` the listener has not
fired, and after the further `setValue({a:1})` it has fired exactly
once, with `(0, 1)`. -/
theorem claim_C6 (eq : StoreState → StoreState → Bool)
    (sel : StoreState → StoreState) (seed : StoreState)
    (ems : List StoreState) :
    (sliceCalls eq sel seed [] = []) ∧
    (∀ next rest, sliceCalls eq sel seed (next :: rest) =
        if eq (sel next) seed then sliceCalls eq sel seed rest
        else (seed, sel next) :: sliceCalls eq sel (sel next) rest) ∧
    (∀ p rest, sliceCalls eq sel seed ems = p :: rest → p.1 = seed) ∧
    (∀ pr ∈ sliceCalls eq sel seed ems, eq pr.2 pr.1 = false) ∧
    (sliceCalls shallow selA (selA storeAB.state) storeAB1.emitted = [] ∧
     sliceCalls shallow selA (selA storeAB.state) storeAB2.emitted =
       [(.prim (.num 0), .prim (.num 1))]) := by
  have hmap := sliceCalls_eq_listenerCalls eq sel ems seed
  have hlc := listenerCalls_head_chain eq (ems.map sel) seed
  refine ⟨rfl, fun next rest => rfl, ?_, ?_, by decide, by decide⟩
  · intro p rest hp
    exact hlc.1 p rest (hmap ▸ hp)
  · intro pr hpr
    exact hlc.2.2 pr (hmap ▸ hpr)

/-- Counterexample to C7 as stated: on `createStore({a: nested})` with
the default engine and a nested plain-object field, `isDirty()` is
`false` right after construction but `true` right after a no-argument
`reset()` — the deep clone rebuilt the nested object into a fresh
reference, and the one-level engine compares that field by identity,
so the claim's "false after any reset() with no argument" fails. -/
theorem claim_C7_counterexample :
    isDirty shallow (createCore (.obj [("a", Prim.ref 0 true 0)])) = false ∧
    isDirty shallow
        (reset0 (createCore (.obj [("a", Prim.ref 0 true 0)]))) = true :=
  ⟨by decide, by decide⟩

/-- Claim C7 (amended): `isDirty()` is the negation of
`areEqual(state, _initialState)` for the store's configured Equality
Engine; for any reflexive, symmetric engine it is `false` immediately
after construction; after a no-argument `reset()` it is `false`
provided no field of the Initial Snapshot holds a nested plain-object
reference (on such snapshots the deep clone is per-field identical —
otherwise the rebuilt fresh references can make `isDirty()` true, as
the counterexample shows); and it is `true` right after an accepted
`setValue` on a fresh store (one whose object patch passes the
equality gate, i.e. changes at least one field). -/
theorem claim_C7 (eq : StoreState → StoreState → Bool)
    (hrefl : ∀ s, eq s s = true) (hsymm : ∀ a b, eq a b = eq b a) :
    (∀ c : Core, isDirty eq c = ! eq c.state c.initSnap) ∧
    (∀ init, isDirty eq (createCore init) = false) ∧
    (∀ c, noPlainRefFields c.initSnap = true →
        isDirty eq (reset0 c) = false) ∧
    (∀ init delta, isObjectVal delta = true →
        eq (createCore init).state
            (mergePatch (createCore init).state delta) = false →
        isDirty eq
            (setValueObjPatch (baseSet eq) (createCore init) delta false) =
          true) := by
  refine ⟨fun c => rfl, ?_, ?_, ?_⟩
  · intro init
    simp [isDirty, createCore, hrefl]
  · intro c hflat
    simp [isDirty, reset0, cloneObject_of_noPlainRefFields hflat, hrefl]
  · intro init delta hobj hne
    rw [setValueObjPatch, applyRes_not_forced _ _ _ hobj,
      baseSet_of_ne _ _ _ hne]
    simp only [isDirty, createCore]
    rw [hsymm]
    simp only [createCore] at hne
    rw [hne]
    rfl

/-- Witness for C7: the structural equality engine is reflexive and
symmetric, and under it the amended claim's conclusions hold; in
particular the freshly built `createStore({a:0,b:0})` is not dirty. -/
theorem claim_C7_witness :
    (∀ s, structEq s s = true) ∧
    ((∀ c : Core, isDirty structEq c = ! structEq c.state c.initSnap) ∧
     (∀ init, isDirty structEq (createCore init) = false) ∧
     (∀ c, noPlainRefFields c.initSnap = true →
         isDirty structEq (reset0 c) = false) ∧
     (∀ init delta, isObjectVal delta = true →
         structEq (createCore init).state
             (mergePatch (createCore init).state delta) = false →
         isDirty structEq
             (setValueObjPatch (baseSet structEq) (createCore init) delta
               false) = true)) :=
  ⟨structEq_refl, claim_C7 structEq structEq_refl structEq_symm⟩

/-- Claim C8: commits are run-to-completion and their notifications
preserve program order — every terminal commit only ever appends to the
emission log — and on the spec's scenario, three synchronous
`setValue(s => ({count: s.count+1}))` calls on `createStore({count:0})`
leave `getValue('count') === 3` and a whole-state listener subscribed
at the start is invoked exactly three times, in order, with the
successive transition pairs. -/
theorem claim_C8 :
    (∀ (eq : StoreState → StoreState → Bool) (c : Core)
        (delta : StoreState),
        c.emitted.IsPrefix (baseSet eq c delta).emitted) ∧
    getValueKey storeCount3 "count" = .num 3 ∧
    storeCount3.emitted =
      [.obj [("count", .num 1)], .obj [("count", .num 2)],
       .obj [("count", .num 3)]] ∧
    listenerCalls shallow storeCount0.state storeCount3.emitted =
      [(.obj [("count", .num 0)], .obj [("count", .num 1)]),
       (.obj [("count", .num 1)], .obj [("count", .num 2)]),
       (.obj [("count", .num 2)], .obj [("count", .num 3)])] := by
    refine ⟨?_, by decide, by decide, by decide⟩
    intro eq c delta
    by_cases h : eq c.state (mergePatch c.state delta)
    · simp [baseSet, h]
    · simp only [baseSet, h]
      exact List.prefix_append _ _

/-- Claim C9: for record state no commit removes a key.  The removal
marker `setImmer` uses for a deleted field is the value `undefined`
(every entry of the removal loop's output carries it), the spread merge
of the terminal commit keeps every key of the current state present,
and concretely, after a draft mutator deletes `b` from `{a:1,b:2}` the
committed state is `{a:1, b:undefined}`: the key `b` is still an own
property, with value `undefined`, rather than absent. -/
theorem claim_C9 :
    (∀ (sp np : Obj) (k : String) (v : Prim),
        (k, v) ∈ immerRemoved sp np → v = .undef) ∧
    (∀ (f d : Obj) (k : String),
        hasKey f k = true → hasKey (spreadMerge f d) k = true) ∧
    storeDel1.state = .obj [("a", .num 1), ("b", .undef)] ∧
    hasKey (enumProps storeDel1.state) "b" = true ∧
    jsGet (enumProps storeDel1.state) "b" = .undef := by
  refine ⟨?_, fun f d k h => hasKey_spreadMerge f d k h, by decide, by decide,
    by decide⟩
  intro sp np k v hm
  rw [immerRemoved, List.mem_map] at hm
  obtain ⟨kv, -, heq⟩ := hm
  injection heq with h1 h2
  exact h2.symm

/-- Claim C10: a whole-state subscription keeps a private
previous-state cache seeded with the state at subscribe time: with no
emission after subscribing, the listener is never invoked; when it is
invoked, the first delivery's `prev` is the seed (not some other
globally preceding state), every later delivery's `prev` is the `next`
of the same listener's previous delivery (the chain condition), and
every delivered pair compares not-equal under the Equality Engine. -/
theorem claim_C10 (eq : StoreState → StoreState → Bool)
    (seed : StoreState) (ems : List StoreState) :
    (listenerCalls eq seed [] = []) ∧
    (∀ p rest, listenerCalls eq seed ems = p :: rest → p.1 = seed) ∧
    List.Chain' (fun a b : StoreState × StoreState => b.1 = a.2)
      (listenerCalls eq seed ems) ∧
    (∀ pr ∈ listenerCalls eq seed ems, eq pr.2 pr.1 = false) := by
  have h := listenerCalls_head_chain eq ems seed
  exact ⟨rfl, h.1, h.2.1, h.2.2⟩

end PocketState
